import Mathlib

/-!
Shallow embedding of the leafcutter-ants–fungus-mutualism agent-based model
(Python sources under `leafcutter_ants_fungi_mutualism/`), together with
theorems settling the behavioural claims about it.

Conventions of the embedding:
* Python floats are modelled as rationals (`ℚ`); Python ints as `ℤ`/`ℕ`.
* A Python computation that can raise an exception is modelled as an
  `Option`-valued function, `none` standing for the raised exception.
* Randomness (calls of `random.random()`, `np.random.uniform`,
  `random.choice`) is modelled by passing the drawn value, or the chosen
  index, as an explicit argument, so every theorem quantifies over all
  possible draws.
* Parts of the simulation state that a method only reads or that it mutates
  outside the ant-local state (the grid, the pheromones, the other agents)
  appear as explicit input parameters of the embedded function.
-/

namespace Leafcutter

/-- Worker states of the current ant agent (`AntWorkerState` in
`model/ant_agent.py`). -/
inductive AntWorkerState where
  | EXPLORE
  | RECRUIT
  | HARVEST
  | CARETAKING
deriving DecidableEq, Repr

/-- Reasons for colony death (`DeathReason` in `model/ant_agent.py`). -/
inductive DeathReason where
  | FUNGUS
  | ANTS
deriving DecidableEq, Repr

/-- An agent as seen by the scheduler and the model-level metric functions:
an `AntAgent` (with the attributes the metrics read), a `Plant` (with its
`num_leaves`), or any other scheduled agent (nest, fungus, pheromone). -/
inductive SimAgent where
  | ant (state : AntWorkerState) (hasLeaf : Bool) (dormant : Bool)
  | plant (numLeaves : ℕ)
  | other
deriving DecidableEq, Repr

/-- Is a scheduled agent an `AntAgent` instance? -/
def SimAgent.isAnt : SimAgent → Bool
  | .ant _ _ _ => true
  | _ => false

/-- The part of the model state that `track_death_reason` reads:
`model.death_reason`, `model.fungus.dead` and `model.schedule.agents`. -/
structure ModelState where
  death_reason : Option DeathReason
  fungus_dead : Bool
  agents : List SimAgent
deriving DecidableEq, Repr

/-- Embedding of `track_death_reason` (`model/ant_agent.py`, lines 32–53):
if a reason is already recorded (a `DeathReason` enum member is truthy,
`None` is falsy) return it; else if the fungus is dead return `FUNGUS`;
else return `None` as soon as a live `AntAgent` is found in the scheduler,
and `ANTS` if the scan finds none. -/
def track_death_reason (m : ModelState) : Option DeathReason :=
  match m.death_reason with
  | some r => some r
  | none =>
    if m.fungus_dead then
      some DeathReason.FUNGUS
    else if m.agents.any SimAgent.isAnt then
      none
    else
      some DeathReason.ANTS

/-- Embedding of the tail of `LeafcutterAntsFungiMutualismModel.step`
(`model/model.py`, lines 221–229): the scheduler step leaves the fungus
flag and the agent list in an arbitrary new configuration `(fd, ag)`, after
which `self.death_reason = track_death_reason(self)` is executed. -/
def modelTick (m : ModelState) (fd : Bool) (ag : List SimAgent) : ModelState :=
  let stepped : ModelState := ⟨m.death_reason, fd, ag⟩
  { stepped with death_reason := track_death_reason stepped }

/-- Iterated model ticks, each tick driven by an arbitrary post-scheduler
configuration of fungus flag and agent list. -/
def modelRun (m : ModelState) : List (Bool × List SimAgent) → ModelState
  | [] => m
  | (fd, ag) :: rest => modelRun (modelTick m fd ag) rest

/-- Embedding of the fitness-queue push in `AntAgent.returned_to_nest`
(`model/ant_agent.py`, lines 273–277) on a `queue.Queue(maxsize)` holding
its elements oldest first. `put_nowait` raises `queue.Full` exactly when
`0 < maxsize ≤ qsize()`; the handler then executes `get()` (removing the
oldest element) followed by a succeeding `put_nowait`. -/
def fitnessPut (cap : ℕ) (q : List ℚ) (x : ℚ) : List ℚ :=
  if 0 < cap ∧ cap ≤ q.length then
    q.drop 1 ++ [x]
  else
    q ++ [x]

/-- A sequence of fitness pushes via the returned-to-nest protocol. -/
def fitnessPutAll (cap : ℕ) (q : List ℚ) (xs : List ℚ) : List ℚ :=
  xs.foldl (fitnessPut cap) q

theorem fitnessPut_length_le {cap : ℕ} {q : List ℚ} (x : ℚ)
    (hcap : 0 < cap) (hq : q.length ≤ cap) :
    (fitnessPut cap q x).length ≤ cap := by
  unfold fitnessPut
  rcases Nat.lt_or_ge q.length cap with h | h
  · rw [if_neg (by omega)]
    simp only [List.length_append, List.length_cons, List.length_nil]
    omega
  · rw [if_pos ⟨hcap, h⟩]
    simp only [List.length_append, List.length_drop, List.length_cons,
      List.length_nil]
    omega

theorem fitnessPutAll_eq_drop {cap : ℕ} (hcap : 0 < cap) :
    ∀ (xs q : List ℚ), q.length ≤ cap →
      fitnessPutAll cap q xs = (q ++ xs).drop (q.length + xs.length - cap) := by
  intro xs
  induction xs with
  | nil =>
    intro q hq
    simp only [fitnessPutAll, List.foldl_nil, List.length_nil, Nat.add_zero,
      List.append_nil]
    rw [Nat.sub_eq_zero_of_le hq, List.drop_zero]
  | cons x xs ih =>
    intro q hq
    have hstep : fitnessPutAll cap q (x :: xs) =
        fitnessPutAll cap (fitnessPut cap q x) xs := rfl
    rw [hstep]
    rcases Nat.lt_or_ge q.length cap with hlt | hge
    · have hput : fitnessPut cap q x = q ++ [x] := by
        unfold fitnessPut
        rw [if_neg (by omega)]
      rw [hput, ih (q ++ [x]) (by simp only [List.length_append,
        List.length_cons, List.length_nil]; omega)]
      have e1 : (q ++ [x]).length + xs.length - cap =
          q.length + (x :: xs).length - cap := by
        simp only [List.length_append, List.length_cons, List.length_nil]
        omega
      rw [e1, List.append_assoc, List.singleton_append]
    · obtain ⟨a, t, rfl⟩ : ∃ a t, q = a :: t := by
        cases q with
        | nil =>
          exfalso
          simp only [List.length_nil] at hge
          omega
        | cons a t => exact ⟨a, t, rfl⟩
      have hql : t.length + 1 = cap := by
        have h := le_antisymm hq hge
        simpa using h
      have hput : fitnessPut cap (a :: t) x = t ++ [x] := by
        unfold fitnessPut
        rw [if_pos ⟨hcap, hge⟩]
        simp
      rw [hput, ih (t ++ [x]) (by simp only [List.length_append,
        List.length_cons, List.length_nil]; omega)]
      have e1 : (t ++ [x]).length + xs.length - cap = xs.length := by
        simp only [List.length_append, List.length_cons, List.length_nil]
        omega
      have e2 : (a :: t).length + (x :: xs).length - cap = xs.length + 1 := by
        simp only [List.length_cons]
        omega
      rw [e1, e2]
      simp only [List.append_assoc, List.singleton_append, List.cons_append,
        List.drop_succ_cons, List.nil_append]

theorem modelTick_death_reason_some {m : ModelState} {r : DeathReason}
    (h : m.death_reason = some r) (fd : Bool) (ag : List SimAgent) :
    (modelTick m fd ag).death_reason = some r := by
  simp only [modelTick, track_death_reason, h]

theorem modelRun_death_reason_some {r : DeathReason} :
    ∀ (envs : List (Bool × List SimAgent)) (m : ModelState),
      m.death_reason = some r → (modelRun m envs).death_reason = some r := by
  intro envs
  induction envs with
  | nil => intro m h; exact h
  | cons e rest ih =>
    intro m h
    exact ih (modelTick m e.1 e.2) (modelTick_death_reason_some h e.1 e.2)

/-- C1: colony death reason is sticky and ordered. `track_death_reason`
returns an already-recorded reason unchanged; on a state with no recorded
reason it returns `FUNGUS` if the fungus is dead, else `ANTS` if no
`AntAgent` remains in the scheduler, else `none`; and once the model has a
non-`none` `death_reason`, running any number of further ticks — with the
fungus flag and the agent list evolving arbitrarily, including a reversal
of the triggering condition — leaves `death_reason` unchanged. -/
theorem C1_death_reason_sticky_and_ordered (m : ModelState) :
    (∀ r : DeathReason, m.death_reason = some r → track_death_reason m = some r) ∧
    (m.death_reason = none → track_death_reason m =
      (if m.fungus_dead then some DeathReason.FUNGUS
       else if m.agents.any SimAgent.isAnt then none
       else some DeathReason.ANTS)) ∧
    (∀ (r : DeathReason), m.death_reason = some r →
      ∀ envs : List (Bool × List SimAgent),
        (modelRun m envs).death_reason = some r) := by
  refine ⟨?_, ?_, ?_⟩
  · intro r h
    simp only [track_death_reason, h]
  · intro h
    simp only [track_death_reason, h]
  · intro r h envs
    exact modelRun_death_reason_some envs m h

/-- Witness for C1, applying it on a model whose recorded reason is
`FUNGUS` while the fungus has meanwhile recovered and an ant is alive: two
further ticks still report `FUNGUS`. -/
theorem C1_death_reason_sticky_and_ordered_witness :
    (modelRun ⟨some DeathReason.FUNGUS, false,
        [SimAgent.ant AntWorkerState.EXPLORE false false]⟩
      [(false, [SimAgent.ant AntWorkerState.EXPLORE false false]),
       (false, [SimAgent.ant AntWorkerState.CARETAKING false true])]).death_reason
      = some DeathReason.FUNGUS :=
  (C1_death_reason_sticky_and_ordered
    ⟨some DeathReason.FUNGUS, false,
      [SimAgent.ant AntWorkerState.EXPLORE false false]⟩).2.2
    DeathReason.FUNGUS rfl
    [(false, [SimAgent.ant AntWorkerState.EXPLORE false false]),
     (false, [SimAgent.ant AntWorkerState.CARETAKING false true])]

/-- C2: the nest's fitness queue is a bounded FIFO with evict-oldest
overflow. A push onto a full queue (capacity `cap > 0`) first removes the
oldest entry and then appends the new value — never a propagated failure
(`fitnessPut` is a total function) — and pushing `cap + k` values, `k > 0`,
onto any queue currently holding at most `cap` entries leaves exactly the
last `cap` pushed values, in push order. -/
theorem C2_fitness_queue_bounded_fifo (cap k : ℕ) (q xs : List ℚ) (x : ℚ)
    (hcap : 0 < cap) (hq : q.length ≤ cap) (hlen : xs.length = cap + k)
    (hk : 0 < k) :
    (cap ≤ q.length → fitnessPut cap q x = q.drop 1 ++ [x]) ∧
    fitnessPutAll cap q xs = xs.drop k ∧
    (fitnessPutAll cap q xs).length = cap := by
  have hdrop : fitnessPutAll cap q xs = xs.drop k := by
    rw [fitnessPutAll_eq_drop hcap xs q hq, hlen]
    have e : q.length + (cap + k) - cap = q.length + k := by omega
    rw [e, List.drop_append]
  refine ⟨?_, hdrop, ?_⟩
  · intro hfull
    unfold fitnessPut
    rw [if_pos ⟨hcap, hfull⟩]
  · rw [hdrop, List.length_drop, hlen]
    omega

/-- Witness for C2 at capacity 2: pushing the five values 1..5 onto an
initially singleton queue leaves exactly the last two, in order. -/
theorem C2_fitness_queue_bounded_fifo_witness :
    (2 ≤ ([(9 : ℚ)] : List ℚ).length →
      fitnessPut 2 [(9 : ℚ)] 7 = [(9 : ℚ)].drop 1 ++ [7]) ∧
    fitnessPutAll 2 [(9 : ℚ)] [1, 2, 3, 4, 5] = [(1 : ℚ), 2, 3, 4, 5].drop 3 ∧
    (fitnessPutAll 2 [(9 : ℚ)] [1, 2, 3, 4, 5]).length = 2 :=
  C2_fitness_queue_bounded_fifo 2 3 [(9 : ℚ)] [1, 2, 3, 4, 5] 7
    (by decide) (by decide) (by decide) (by decide)

/-- State of the fungus agent as read and written by the nest: its
`biomass` and its `dead` flag. -/
structure Fungus where
  biomass : ℚ
  dead : Bool
deriving DecidableEq, Repr

/-- Modelled from the spec: `Fungus.check_death` — the file
`model/fungus.py` is not among the available sources; per §4.5 of the spec
it "sets `dead = true` when `biomass <= fungus_biomass_death_threshold`",
and a dead fungus is never resurrected. -/
def Fungus.check_death (threshold : ℚ) (f : Fungus) : Fungus :=
  if f.biomass ≤ threshold then { f with dead := true } else f

theorem Fungus.check_death_biomass (threshold : ℚ) (f : Fungus) :
    (Fungus.check_death threshold f).biomass = f.biomass := by
  unfold Fungus.check_death
  split <;> rfl

/-- Embedding of `Nest.feed_larvae` (`model/nest.py`, lines 27–34): when
the fungus is not dead, its biomass is decremented by
`caretaker_carrying_amount` (`cca`), `check_death` is invoked, and
`fungus_larvae_cvn * caretaker_carrying_amount` is added to the nest's
`energy_buffer`; the updated fungus and energy buffer are returned. -/
def feed_larvae (cca flc threshold : ℚ) (f : Fungus) (energy : ℚ) :
    Fungus × ℚ :=
  if !f.dead then
    (Fungus.check_death threshold { f with biomass := f.biomass - cca },
     energy + flc * cca)
  else
    (f, energy)

/-- C5: when the fungus is not dead, `feed_larvae` decreases fungus
biomass by exactly `caretaker_carrying_amount`, invokes the fungus death
check on the decremented fungus, and increases `energy_buffer` by exactly
`fungus_larvae_cvn * caretaker_carrying_amount`; when the fungus is already
dead the call is a no-op on both the fungus and the energy buffer. -/
theorem C5_feed_larvae_cases (cca flc threshold energy : ℚ) (f : Fungus) :
    (f.dead = false →
      (feed_larvae cca flc threshold f energy).1.biomass = f.biomass - cca ∧
      (feed_larvae cca flc threshold f energy).1 =
        Fungus.check_death threshold { f with biomass := f.biomass - cca } ∧
      (feed_larvae cca flc threshold f energy).2 = energy + flc * cca) ∧
    (f.dead = true → feed_larvae cca flc threshold f energy = (f, energy)) := by
  constructor
  · intro hdead
    unfold feed_larvae
    rw [hdead]
    exact ⟨Fungus.check_death_biomass _ _, rfl, rfl⟩
  · intro hdead
    unfold feed_larvae
    rw [hdead]
    rfl

/-- Witness for C5 in both cases: a live fungus of biomass 50 loses
exactly 1 unit and contributes 9/10 energy; a dead one is untouched. -/
theorem C5_feed_larvae_cases_witness :
    ((false : Bool) = false →
      (feed_larvae 1 (9/10) 5 ⟨50, false⟩ 0).1.biomass = (50 : ℚ) - 1 ∧
      (feed_larvae 1 (9/10) 5 ⟨50, false⟩ 0).1 =
        Fungus.check_death 5 ⟨(50 : ℚ) - 1, false⟩ ∧
      (feed_larvae 1 (9/10) 5 ⟨50, false⟩ 0).2 = 0 + (9/10) * 1) ∧
    ((false : Bool) = true →
      feed_larvae 1 (9/10) 5 ⟨50, false⟩ 0 = (⟨50, false⟩, 0)) :=
  C5_feed_larvae_cases 1 (9/10) 5 0 ⟨50, false⟩

/-- Python `int()` applied to a float truncates toward zero. -/
def pyInt (q : ℚ) : ℤ :=
  if 0 ≤ q then ⌊q⌋ else ⌈q⌉

/-- Embedding of `Nest.ant_birth` (`model/nest.py`, lines 12–25): with
`average_fitness` the mean of the fitness queue (0.5 when it is empty),
each of the `n` loop iterations creates one ant at the nest position, in
`CARETAKING` state when its `random()` draw exceeds `average_fitness` and
in the default `EXPLORE` state otherwise. A Python `range` over a
non-positive `n` is empty. -/
def ant_birth (fitness_queue : List ℚ) (nestPos : ℤ × ℤ) (draws : ℕ → ℚ)
    (n : ℤ) : List (AntWorkerState × (ℤ × ℤ)) :=
  let average_fitness : ℚ :=
    if fitness_queue.length ≠ 0 then
      fitness_queue.sum / fitness_queue.length
    else
      1/2
  (List.range n.toNat).map (fun i =>
    (if average_fitness < draws i then AntWorkerState.CARETAKING
     else AntWorkerState.EXPLORE,
     nestPos))

/-- Embedding of `Nest.step` (`model/nest.py`, lines 36–40):
`offspring_count = int(energy_buffer / energy_per_offspring)`, the consumed
energy is subtracted from the buffer, and `ant_birth(offspring_count)` is
called. Returns the new energy buffer and the list of ants born. -/
def nest_step (energy_per_offspring : ℚ) (fitness_queue : List ℚ)
    (nestPos : ℤ × ℤ) (draws : ℕ → ℚ) (energy_buffer : ℚ) :
    ℚ × List (AntWorkerState × (ℤ × ℤ)) :=
  let offspring_count := pyInt (energy_buffer / energy_per_offspring)
  (energy_buffer - offspring_count * energy_per_offspring,
   ant_birth fitness_queue nestPos draws offspring_count)

/-- C6: for a nest tick with `energy_buffer = e ≥ 0` and
`energy_per_offspring = p > 0`, the offspring count is `⌊e / p⌋`, the
energy buffer decreases by `offspring_count * p` to the remainder of `e`
mod `p` (a value in `[0, p)`), and `ant_birth` creates exactly
`offspring_count` new ants, all at the nest position. -/
theorem C6_nest_step_offspring (p e : ℚ) (fq : List ℚ) (pos : ℤ × ℤ)
    (draws : ℕ → ℚ) (he : 0 ≤ e) (hp : 0 < p) :
    pyInt (e / p) = ⌊e / p⌋ ∧
    (nest_step p fq pos draws e).1 = e - ⌊e / p⌋ * p ∧
    0 ≤ (nest_step p fq pos draws e).1 ∧
    (nest_step p fq pos draws e).1 < p ∧
    ((nest_step p fq pos draws e).2.length : ℤ) = ⌊e / p⌋ ∧
    ∀ b ∈ (nest_step p fq pos draws e).2, b.2 = pos := by
  have hq : 0 ≤ e / p := div_nonneg he (le_of_lt hp)
  have hint : pyInt (e / p) = ⌊e / p⌋ := by
    unfold pyInt
    rw [if_pos hq]
  have hfloor0 : (0 : ℤ) ≤ ⌊e / p⌋ := Int.floor_nonneg.mpr hq
  have hlow : (⌊e / p⌋ : ℚ) * p ≤ e := by
    have h := Int.floor_le (e / p)
    calc (⌊e / p⌋ : ℚ) * p ≤ (e / p) * p :=
          mul_le_mul_of_nonneg_right h (le_of_lt hp)
      _ = e := div_mul_cancel₀ e (ne_of_gt hp)
  have hhigh : e < ((⌊e / p⌋ : ℚ) + 1) * p := by
    have h := Int.lt_floor_add_one (e / p)
    calc e = (e / p) * p := (div_mul_cancel₀ e (ne_of_gt hp)).symm
      _ < ((⌊e / p⌋ : ℚ) + 1) * p := by
          exact mul_lt_mul_of_pos_right h hp
  refine ⟨hint, ?_, ?_, ?_, ?_, ?_⟩
  · simp only [nest_step, hint]
  · simp only [nest_step, hint]
    linarith
  · simp only [nest_step, hint]
    nlinarith
  · simp only [nest_step, ant_birth, hint, List.length_map,
      List.length_range]
    exact Int.toNat_of_nonneg hfloor0
  · intro b hb
    simp only [nest_step, ant_birth, List.mem_map] at hb
    obtain ⟨i, _, rfl⟩ := hb
    rfl

/-- Witness for C6 with `e = 5/2`, `p = 1`: offspring count 2, remainder
1/2, two ants born at the nest. -/
theorem C6_nest_step_offspring_witness :
    pyInt ((5/2 : ℚ) / 1) = ⌊(5/2 : ℚ) / 1⌋ ∧
    (nest_step 1 [] (3, 3) (fun _ => 0) (5/2)).1 = 5/2 - ⌊(5/2 : ℚ) / 1⌋ * 1 ∧
    0 ≤ (nest_step 1 [] (3, 3) (fun _ => 0) (5/2)).1 ∧
    (nest_step 1 [] (3, 3) (fun _ => 0) (5/2)).1 < 1 ∧
    ((nest_step 1 [] (3, 3) (fun _ => 0) (5/2)).2.length : ℤ) = ⌊(5/2 : ℚ) / 1⌋ ∧
    ∀ b ∈ (nest_step 1 [] (3, 3) (fun _ => 0) (5/2)).2, b.2 = ((3 : ℤ), (3 : ℤ)) :=
  C6_nest_step_offspring 1 (5/2) [] (3, 3) (fun _ => 0)
    (by norm_num) (by norm_num)

/-- Rounding of a float to the nearest integer with ties going to the even
integer, the behaviour of Python's built-in `round` on the `np.float64`
returned by `np.random.uniform`. -/
def pyRound (q : ℚ) : ℤ :=
  if q - ⌊q⌋ < 1/2 then ⌊q⌋
  else if 1/2 < q - ⌊q⌋ then ⌊q⌋ + 1
  else if ⌊q⌋ % 2 = 0 then ⌊q⌋ else ⌊q⌋ + 1

/-- Embedding of `AntAgent.set_roundtrip_length` (`model/ant_agent.py`,
lines 328–335): it records the current fungus biomass as
`fungus_biomass_start` and sets
`roundtrip_length = round(np.random.uniform(1, mu * 2))`, where `r` is the
uniform real sample, `1 ≤ r < 2·mu`. The `sigma` parameter is accepted but
never read. Returns `(roundtrip_length, fungus_biomass_start)`. -/
def set_roundtrip_length (mu sigma : ℚ) (fungusBiomass r : ℚ) : ℤ × ℚ :=
  (pyRound r, fungusBiomass)

theorem pyRound_le_floor_add_half (q : ℚ) : pyRound q ≤ ⌊q + 1/2⌋ := by
  have hfl : (⌊q⌋ : ℚ) ≤ q := Int.floor_le q
  unfold pyRound
  split
  · exact Int.le_floor.mpr (by linarith)
  · rename_i h1
    push_neg at h1
    split
    · rename_i h2
      exact Int.le_floor.mpr (by push_cast; linarith)
    · split
      · exact Int.le_floor.mpr (by linarith)
      · exact Int.le_floor.mpr (by push_cast; linarith)

theorem floor_le_pyRound (q : ℚ) : ⌊q⌋ ≤ pyRound q := by
  unfold pyRound
  split
  · exact le_refl _
  · split
    · omega
    · split
      · exact le_refl _
      · omega

/-- C8 counterexample: the claim says the draw is a uniformly distributed
random integer in `[1, 2·mu]`. At `mu = 5.3` the valid uniform sample
`r = 10.55 ∈ [1, 2·mu)` rounds to 11, which exceeds `2·mu = 10.6`, so the
result does not even lie in `[1, 2·mu]` (and rounding a uniform real sample
does not induce the uniform integer distribution). -/
theorem C8_roundtrip_not_uniform_integer_counterexample :
    (1 : ℚ) ≤ 211/20 ∧ (211/20 : ℚ) < 2 * (53/10) ∧
    (set_roundtrip_length (53/10) 5 50 (211/20)).1 = 11 ∧
    ¬ (((set_roundtrip_length (53/10) 5 50 (211/20)).1 : ℚ) ≤ 2 * (53/10)) := by
  have hfl : ⌊(211/20 : ℚ)⌋ = 10 := by
    rw [Int.floor_eq_iff]
    norm_num
  have hround : pyRound (211/20 : ℚ) = 11 := by
    unfold pyRound
    rw [hfl]
    norm_num
  have hval : (set_roundtrip_length (53/10) 5 50 (211/20)).1 = 11 := hround
  refine ⟨by norm_num, by norm_num, hval, ?_⟩
  rw [hval]
  norm_num

/-- C8 (amended): `set_roundtrip_length(mu, sigma)` sets
`roundtrip_length` to `round(r)` for a real sample `r` drawn uniformly from
`[1, 2·mu)`; the result is independent of the `sigma` argument (accepted
but unused in the draw), is at least 1 whenever `r ≥ 1`, is at most
`⌊2·mu + 1/2⌋` whenever `r < 2·mu` (hence lies in `[1, 2·mu]` whenever
`2·mu` is an integer), and the current fungus biomass is recorded as
`fungus_biomass_start`. -/
theorem C8_roundtrip_draw (mu sigma₁ sigma₂ fb r : ℚ) :
    set_roundtrip_length mu sigma₁ fb r = set_roundtrip_length mu sigma₂ fb r ∧
    (set_roundtrip_length mu sigma₁ fb r).2 = fb ∧
    (set_roundtrip_length mu sigma₁ fb r).1 = pyRound r ∧
    (1 ≤ r → 1 ≤ (set_roundtrip_length mu sigma₁ fb r).1) ∧
    (r < 2 * mu → (set_roundtrip_length mu sigma₁ fb r).1 ≤ ⌊2 * mu + 1/2⌋) ∧
    (∀ n : ℤ, (n : ℚ) = 2 * mu → r < 2 * mu →
      (set_roundtrip_length mu sigma₁ fb r).1 ≤ n) := by
  refine ⟨rfl, rfl, rfl, ?_, ?_, ?_⟩
  · intro h1
    have hfl : (1 : ℤ) ≤ ⌊r⌋ := Int.le_floor.mpr (by exact_mod_cast h1)
    exact le_trans hfl (floor_le_pyRound r)
  · intro hlt
    refine le_trans (pyRound_le_floor_add_half r) (Int.floor_le_floor ?_)
    linarith
  · intro n hn hlt
    have h1 : pyRound r ≤ ⌊r + 1/2⌋ := pyRound_le_floor_add_half r
    have h2 : ⌊r + 1/2⌋ ≤ ⌊(n : ℚ) + 1/2⌋ := by
      apply Int.floor_le_floor
      rw [hn]
      linarith
    have h3 : ⌊(n : ℚ) + 1/2⌋ = n := by
      rw [Int.floor_int_add]
      norm_num
    show pyRound r ≤ n
    omega

/-- Witness for C8 at `mu = 5`, sample `r = 7/2`: the result equals 4 for
both `sigma = 5` and `sigma = 7`, lies in `[1, 10]`, and the biomass 50 is
recorded. -/
theorem C8_roundtrip_draw_witness :
    set_roundtrip_length 5 5 50 (7/2) = set_roundtrip_length 5 7 50 (7/2) ∧
    1 ≤ (set_roundtrip_length 5 5 50 (7/2)).1 ∧
    (set_roundtrip_length 5 5 50 (7/2)).1 ≤ ⌊2 * (5 : ℚ) + 1/2⌋ ∧
    (set_roundtrip_length 5 5 50 (7/2)).1 ≤ 10 := by
  have h := C8_roundtrip_draw 5 5 7 50 (7/2)
  exact ⟨h.1, h.2.2.2.1 (by norm_num), h.2.2.2.2.1 (by norm_num),
    h.2.2.2.2.2 10 (by norm_num) (by norm_num)⟩

/-- Modelled from the spec: `manhattan_distance` — the file
`model/util.py` is not among the available sources; per §4.1 of the spec it
is the "sum of absolute coordinate differences between two grid
positions" (no toroidal wraparound). -/
def manhattan_distance (p q : ℤ × ℤ) : ℕ :=
  (p.1 - q.1).natAbs + (p.2 - q.2).natAbs

/-- The movement performed by one `harvest_step` invocation: no movement,
the `random_move()` of the dead-end branch, or `grid.move_agent` onto a
specific cell. -/
inductive HarvestMove where
  | still
  | randomMove
  | moveTo (pos : ℤ × ℤ)
deriving DecidableEq, Repr

/-- The ant-local outcome of one `harvest_step` invocation. -/
structure HarvestResult where
  state : AntWorkerState
  hasLeaf : Bool
  move : HarvestMove
deriving DecidableEq, Repr

/-- Embedding of `AntAgent.harvest_step` (`model/ant_agent.py`, lines
131–170). Inputs: the ant's `has_leaf` flag and position, the nest
position, the positions of the nearby plants and pheromones (Moore
neighborhood including the own cell), the `take_leaf()` outcome of the
randomly chosen plant, and the index `k` the `random.choice` draw selects
inside `np.argwhere(pheromones_dist_change > 0).flatten()`. -/
def harvest_step (hasLeaf : Bool) (antPos nestPos : ℤ × ℤ)
    (plants pheromones : List (ℤ × ℤ)) (leafSuccess : Bool) (k : ℕ) :
    HarvestResult :=
  if plants ≠ [] then
    if leafSuccess then
      ⟨AntWorkerState.RECRUIT, true, HarvestMove.still⟩
    else
      ⟨AntWorkerState.EXPLORE, hasLeaf, HarvestMove.still⟩
  else if pheromones = [] then
    ⟨AntWorkerState.EXPLORE, hasLeaf, HarvestMove.still⟩
  else
    let ant_dist : ℤ := manhattan_distance antPos nestPos
    let changes : List ℤ :=
      pheromones.map (fun p => (manhattan_distance p nestPos : ℤ) - ant_dist)
    if changes.all (fun c => decide (c ≤ 0)) then
      ⟨AntWorkerState.EXPLORE, hasLeaf, HarvestMove.randomMove⟩
    else
      let outwards := (List.range pheromones.length).filter
        (fun i => decide (0 < changes.getD i 0))
      ⟨AntWorkerState.HARVEST, hasLeaf,
        HarvestMove.moveTo (pheromones.getD (outwards.getD k 0) (0, 0))⟩

theorem filter_range_getD_map {α : Type} (l : List α) (d : α) (p : α → Bool) :
    ((List.range l.length).filter (fun i => p (l.getD i d))).map
      (fun i => l.getD i d) = l.filter p := by
  induction l with
  | nil => rfl
  | cons a t ih =>
    rw [List.length_cons, List.range_succ_eq_map, List.filter_cons]
    simp only [List.getD_cons_zero]
    rw [List.filter_map]
    have hcomp : ((fun i => p ((a :: t).getD i d)) ∘ Nat.succ) =
        (fun i => p (t.getD i d)) := by
      funext i
      simp [Function.comp, List.getD_cons_succ]
    rw [hcomp]
    have hmm : ((fun i => (a :: t).getD i d) ∘ Nat.succ) =
        (fun i => t.getD i d) := by
      funext i
      simp [Function.comp, List.getD_cons_succ]
    by_cases hpa : p a = true
    · rw [if_pos hpa, List.map_cons, List.getD_cons_zero, List.map_map, hmm,
        ih, List.filter_cons, if_pos hpa]
    · rw [if_neg hpa, List.map_map, hmm, ih, List.filter_cons, if_neg hpa]

theorem getD_map_of_lt {α β : Type} (f : α → β) (l : List α) (d : α) (e : β)
    {i : ℕ} (h : i < l.length) : (l.map f).getD i e = f (l.getD i d) := by
  rw [List.getD_eq_getElem?_getD, List.getD_eq_getElem?_getD,
    List.getElem?_map, List.getElem?_eq_getElem h]
  simp

/-- The pheromone positions selected by
`np.argwhere(pheromones_dist_change > 0).flatten()` are exactly the nearby
pheromones whose Manhattan distance from the nest strictly exceeds the
ant's own. -/
theorem outwards_map_eq (pheromones : List (ℤ × ℤ)) (nestPos : ℤ × ℤ)
    (ant_dist : ℕ) :
    ((List.range pheromones.length).filter
        (fun i => decide (0 < (pheromones.map
          (fun p => (manhattan_distance p nestPos : ℤ) - (ant_dist : ℤ))).getD i 0))).map
      (fun i => pheromones.getD i (0, 0)) =
    pheromones.filter
      (fun p => decide (ant_dist < manhattan_distance p nestPos)) := by
  have hcong : (List.range pheromones.length).filter
      (fun i => decide (0 < (pheromones.map
        (fun p => (manhattan_distance p nestPos : ℤ) - (ant_dist : ℤ))).getD i 0)) =
    (List.range pheromones.length).filter
      (fun i => (fun p => decide (ant_dist < manhattan_distance p nestPos))
        (pheromones.getD i (0, 0))) := by
    apply List.filter_congr
    intro i hi
    rw [List.mem_range] at hi
    rw [getD_map_of_lt _ _ (0, 0) _ hi]
    apply decide_eq_decide.mpr
    constructor
    · intro h
      have h2 := Int.lt_of_sub_pos h
      exact_mod_cast h2
    · intro h
      apply Int.sub_pos_of_lt
      exact_mod_cast h
  rw [hcong]
  exact filter_range_getD_map pheromones (0, 0)
    (fun p => decide (ant_dist < manhattan_distance p nestPos))

/-- C7: the HARVEST step. With a plant in the Moore neighborhood
(including the own cell), the chosen plant's `take_leaf()` success sets
`has_leaf` and switches to RECRUIT, failure switches to EXPLORE; with no
plant and no pheromone nearby the ant switches to EXPLORE; with pheromones
none of which is strictly farther from the nest (Manhattan distance) than
the ant itself, the ant performs a random move and switches to EXPLORE; and
otherwise it stays in HARVEST and moves onto the `k`-th pheromone among
exactly those strictly farther from the nest than itself (the set the
uniform `random.choice` draws from), a pheromone that is indeed nearby and
strictly farther. -/
theorem C7_harvest_step_branches (hasLeaf : Bool) (antPos nestPos : ℤ × ℤ)
    (plants pheromones : List (ℤ × ℤ)) (leafSuccess : Bool) (k : ℕ) :
    (plants ≠ [] → leafSuccess = true →
      harvest_step hasLeaf antPos nestPos plants pheromones leafSuccess k =
        ⟨AntWorkerState.RECRUIT, true, HarvestMove.still⟩) ∧
    (plants ≠ [] → leafSuccess = false →
      harvest_step hasLeaf antPos nestPos plants pheromones leafSuccess k =
        ⟨AntWorkerState.EXPLORE, hasLeaf, HarvestMove.still⟩) ∧
    (plants = [] → pheromones = [] →
      harvest_step hasLeaf antPos nestPos plants pheromones leafSuccess k =
        ⟨AntWorkerState.EXPLORE, hasLeaf, HarvestMove.still⟩) ∧
    (plants = [] → pheromones ≠ [] →
      (∀ p ∈ pheromones,
        manhattan_distance p nestPos ≤ manhattan_distance antPos nestPos) →
      harvest_step hasLeaf antPos nestPos plants pheromones leafSuccess k =
        ⟨AntWorkerState.EXPLORE, hasLeaf, HarvestMove.randomMove⟩) ∧
    (plants = [] →
      k < (pheromones.filter (fun p => decide (manhattan_distance antPos nestPos
            < manhattan_distance p nestPos))).length →
      harvest_step hasLeaf antPos nestPos plants pheromones leafSuccess k =
        ⟨AntWorkerState.HARVEST, hasLeaf, HarvestMove.moveTo
          ((pheromones.filter (fun p => decide (manhattan_distance antPos nestPos
            < manhattan_distance p nestPos))).getD k (0, 0))⟩ ∧
      (pheromones.filter (fun p => decide (manhattan_distance antPos nestPos
        < manhattan_distance p nestPos))).getD k (0, 0) ∈ pheromones ∧
      manhattan_distance antPos nestPos < manhattan_distance
        ((pheromones.filter (fun p => decide (manhattan_distance antPos nestPos
          < manhattan_distance p nestPos))).getD k (0, 0)) nestPos) := by
  refine ⟨?_, ?_, ?_, ?_, ?_⟩
  · intro h1 h2
    simp [harvest_step, h1, h2]
  · intro h1 h2
    simp [harvest_step, h1, h2]
  · intro h1 h2
    simp [harvest_step, h1, h2]
  · intro h1 h2 h3
    have hall : (pheromones.map
        (fun p => (manhattan_distance p nestPos : ℤ)
          - (manhattan_distance antPos nestPos : ℤ))).all
        (fun c => decide (c ≤ 0)) = true := by
      rw [List.all_eq_true]
      intro c hc
      rw [List.mem_map] at hc
      obtain ⟨p, hp, rfl⟩ := hc
      apply decide_eq_true
      have := h3 p hp
      apply Int.sub_nonpos_of_le
      exact_mod_cast this
    simp [harvest_step, h1, h2, hall]
  · intro h1 hk
    have hflen : 0 < (pheromones.filter
        (fun p => decide (manhattan_distance antPos nestPos
          < manhattan_distance p nestPos))).length :=
      Nat.lt_of_le_of_lt (Nat.zero_le k) hk
    have hph : pheromones ≠ [] := by
      intro hnil
      rw [hnil] at hflen
      simp at hflen
    obtain ⟨q, hqmem⟩ : ∃ q, q ∈ pheromones.filter
        (fun p => decide (manhattan_distance antPos nestPos
          < manhattan_distance p nestPos)) :=
      List.exists_mem_of_ne_nil _ (List.length_pos.mp hflen)
    have hqparts := List.mem_filter.mp hqmem
    have hqfar : manhattan_distance antPos nestPos
        < manhattan_distance q nestPos := of_decide_eq_true hqparts.2
    have hnall : ((pheromones.map
        (fun p => (manhattan_distance p nestPos : ℤ)
          - (manhattan_distance antPos nestPos : ℤ))).all
        (fun c => decide (c ≤ 0))) = false := by
      rw [Bool.eq_false_iff]
      intro hall
      rw [List.all_eq_true] at hall
      have hq0 := hall ((manhattan_distance q nestPos : ℤ)
          - (manhattan_distance antPos nestPos : ℤ))
        (List.mem_map_of_mem _ hqparts.1)
      have hle : (manhattan_distance q nestPos : ℤ)
          - (manhattan_distance antPos nestPos : ℤ) ≤ 0 := of_decide_eq_true hq0
      have : (manhattan_distance q nestPos : ℤ)
          ≤ (manhattan_distance antPos nestPos : ℤ) := Int.le_of_sub_nonpos hle
      have hle2 : manhattan_distance q nestPos
          ≤ manhattan_distance antPos nestPos := by exact_mod_cast this
      omega
    have hmap := outwards_map_eq pheromones nestPos
      (manhattan_distance antPos nestPos)
    have hlen2 : ((List.range pheromones.length).filter
        (fun i => decide (0 < (pheromones.map
          (fun p => (manhattan_distance p nestPos : ℤ)
            - (manhattan_distance antPos nestPos : ℤ))).getD i 0))).length =
        (pheromones.filter (fun p => decide (manhattan_distance antPos nestPos
          < manhattan_distance p nestPos))).length := by
      rw [← hmap, List.length_map]
    have hkout : k < ((List.range pheromones.length).filter
        (fun i => decide (0 < (pheromones.map
          (fun p => (manhattan_distance p nestPos : ℤ)
            - (manhattan_distance antPos nestPos : ℤ))).getD i 0))).length := by
      omega
    have hgd : (pheromones.filter
        (fun p => decide (manhattan_distance antPos nestPos
          < manhattan_distance p nestPos))).getD k (0, 0) =
        pheromones.getD (((List.range pheromones.length).filter
          (fun i => decide (0 < (pheromones.map
            (fun p => (manhattan_distance p nestPos : ℤ)
              - (manhattan_distance antPos nestPos : ℤ))).getD i 0))).getD k 0)
          (0, 0) := by
      rw [← hmap, getD_map_of_lt (fun i => pheromones.getD i (0, 0)) _ 0 _ hkout]
    have hq2 : (pheromones.filter
        (fun p => decide (manhattan_distance antPos nestPos
          < manhattan_distance p nestPos))).getD k (0, 0) ∈
        pheromones.filter (fun p => decide (manhattan_distance antPos nestPos
          < manhattan_distance p nestPos)) := by
      rw [List.getD_eq_getElem?_getD, List.getElem?_eq_getElem hk]
      exact List.getElem_mem hk
    have hq2parts := List.mem_filter.mp hq2
    refine ⟨?_, hq2parts.1, of_decide_eq_true hq2parts.2⟩
    simp only [harvest_step, h1, hph]
    rw [hgd]
    simp [hnall]

/-- Witness for C7 on a concrete HARVEST configuration: ant at (1,0), nest
at (0,0), no plants, pheromones at (2,0) (strictly farther) and (0,1)
(not farther); the draw selects index 0, so the ant moves onto (2,0) and
stays in HARVEST. -/
theorem C7_harvest_step_branches_witness :
    harvest_step false (1, 0) (0, 0) [] [(2, 0), (0, 1)] false 0 =
      ⟨AntWorkerState.HARVEST, false, HarvestMove.moveTo (2, 0)⟩ := by
  have h := (C7_harvest_step_branches false (1, 0) (0, 0) []
    [(2, 0), (0, 1)] false 0).2.2.2.2 rfl (by decide)
  rw [h.1]
  decide

/-- The ant-local attributes of the current `AntAgent`
(`model/ant_agent.py`, `__init__`, lines 57–65): behavioural state,
`has_leaf`, the trip accumulators, the caretaking countdown
(`roundtrip_length`, `None` until the first caretaking step), the
`dormant` flag and the recorded `fungus_biomass_start` (absent until
`set_roundtrip_length` first runs). -/
structure AntState where
  state : AntWorkerState
  has_leaf : Bool
  neighbor_density_acc : ℚ
  trip_duration : ℕ
  roundtrip_length : Option ℤ
  dormant : Bool
  fungus_biomass_start : Option ℚ
deriving DecidableEq, Repr

/-- The environment and randomness consumed by one `AntAgent.step`: the
grid context (which plants/pheromones are nearby, whether the ant stands
on the nest), the random outcomes (`take_leaf` success, the roundtrip
draw, the role-switch roll), the caretaking fitness comparison outcome,
this tick's neighborhood density sample, and the current fungus
biomass. -/
structure StepEnv where
  nearbyPlants : Bool
  leafSuccess : Bool
  nearbyPheromones : Bool
  outwardsPheromone : Bool
  onNest : Bool
  /-- Outcome of `0.5 > arctan_activation_pstv(ratio, 1)` on the
  successfully computed fitness ratio; only the saturating transform
  itself (unavailable `model/util.py`, total per §4.1) is abstracted —
  the division producing the ratio is embedded explicitly with its
  `ZeroDivisionError` path (`fitnessRatio`). -/
  fitnessLow : Bool
  draw : ℤ
  switchCare : Bool
  density : ℚ
  fungusBiomass : ℚ
deriving DecidableEq, Repr

/-- The ant-local effect of `AntAgent.explore_step` (`model/ant_agent.py`,
lines 88–109): after the random move, a nearby plant is tried first (leaf
success switches to RECRUIT), otherwise a nearby pheromone switches to
HARVEST. -/
def explore_step_local (a : AntState) (e : StepEnv) : AntState :=
  if e.nearbyPlants then
    if e.leafSuccess then
      { a with has_leaf := true, state := AntWorkerState.RECRUIT }
    else a
  else if e.nearbyPheromones then
    { a with state := AntWorkerState.HARVEST }
  else a

/-- The division `neighbor_density_acc / trip_duration` computing
`interaction_prob` in `AntAgent.returned_to_nest` (`model/ant_agent.py`,
line 269). There is no zero-denominator branch in the source: a zero
`trip_duration` would raise `ZeroDivisionError`, modelled as `none`. -/
def interactionProb (acc : ℚ) (dur : ℕ) : Option ℚ :=
  if dur = 0 then none else some (acc / dur)

/-- The ant-local effect of `AntAgent.returned_to_nest`
(`model/ant_agent.py`, lines 257–297): clear the leaf flag, compute
`interaction_prob` (a possible `ZeroDivisionError`), push onto the fitness
queue and possibly draft a caretaker (both external effects), switch to
CARETAKING or EXPLORE according to the role-switch roll, and reset the
trip accumulators. -/
def returned_to_nest_local (a : AntState) (e : StepEnv) : Option AntState :=
  let a1 := if a.has_leaf then { a with has_leaf := false } else a
  match interactionProb a1.neighbor_density_acc a1.trip_duration with
  | none => none
  | some _ip =>
    let a2 := if e.switchCare then { a1 with state := AntWorkerState.CARETAKING }
              else { a1 with state := AntWorkerState.EXPLORE }
    some { a2 with neighbor_density_acc := 0, trip_duration := 0 }

/-- The ant-local effect of `AntAgent.recruit_step` (`model/ant_agent.py`,
lines 111–129): on the nest run the returned-to-nest protocol; otherwise
deposit a pheromone and move toward the nest (external effects only). -/
def recruit_step_local (a : AntState) (e : StepEnv) : Option AntState :=
  if e.onNest then returned_to_nest_local a e else some a

/-- The ant-local effect of `AntAgent.harvest_step` (`model/ant_agent.py`,
lines 131–170), with the grid outcomes abstracted to the booleans of
`StepEnv` (the per-branch behaviour is verified in detail against
`harvest_step` above). -/
def harvest_step_local (a : AntState) (e : StepEnv) : AntState :=
  if e.nearbyPlants then
    if e.leafSuccess then
      { a with has_leaf := true, state := AntWorkerState.RECRUIT }
    else
      { a with state := AntWorkerState.EXPLORE }
  else if !e.nearbyPheromones then
    { a with state := AntWorkerState.EXPLORE }
  else if !e.outwardsPheromone then
    { a with state := AntWorkerState.EXPLORE }
  else a

/-- The ant-local effect of `AntAgent.set_roundtrip_length`
(`model/ant_agent.py`, lines 328–335). -/
def set_roundtrip_local (a : AntState) (draw : ℤ) (biomass : ℚ) : AntState :=
  { a with fungus_biomass_start := some biomass,
           roundtrip_length := some draw }

/-- The division `self.model.fungus.biomass / self.fungus_biomass_start`
computing the argument of the caretaking fitness transform
(`model/ant_agent.py`, lines 190–192). There is no zero-denominator
branch in the source: a recorded baseline of exactly 0 would raise
`ZeroDivisionError`, modelled as `none`. -/
def fitnessRatio (biomass start : ℚ) : Option ℚ :=
  if start = 0 then none else some (biomass / start)

/-- The ant-local effect of `AntAgent.caretaking_step`
(`model/ant_agent.py`, lines 172–208): initialize the countdown on first
entry, decrement it, and at zero compute the fitness ratio
`fungus.biomass / fungus_biomass_start` — a bare division that raises
`ZeroDivisionError` when the recorded baseline is 0 (the `none` path);
an unset `fungus_biomass_start` would likewise raise `AttributeError`.
The saturating transform `arctan_activation_pstv` applied to the ratio
lives in the unavailable `model/util.py` and per §4.1 of the spec is a
total map into (0, 1), so only the outcome of the comparison
`0.5 > fitness` on the successfully computed ratio is carried as the
input `e.fitnessLow`: on a low fitness the ant goes dormant, otherwise it
feeds the larvae (external effect), redrawing the countdown either way. -/
def caretaking_step_local (a : AntState) (e : StepEnv) : Option AntState :=
  let a0 := if a.roundtrip_length = none
            then set_roundtrip_local a e.draw e.fungusBiomass
            else a
  let a1 := { a0 with
    roundtrip_length := a0.roundtrip_length.map (fun n => n - 1) }
  if a1.roundtrip_length = some 0 then
    match a1.fungus_biomass_start with
    | none => none
    | some start =>
      match fitnessRatio e.fungusBiomass start with
      | none => none
      | some _ratio =>
        if e.fitnessLow then
          some (set_roundtrip_local { a1 with dormant := true }
            e.draw e.fungusBiomass)
        else
          some (set_roundtrip_local { a1 with dormant := false }
            e.draw e.fungusBiomass)
  else some a1

/-- The state dispatch of `AntAgent.step` (`model/ant_agent.py`, lines
74–82). -/
def ant_dispatch (a : AntState) (e : StepEnv) : Option AntState :=
  match a.state with
  | AntWorkerState.EXPLORE => some (explore_step_local a e)
  | AntWorkerState.RECRUIT => recruit_step_local a e
  | AntWorkerState.HARVEST => some (harvest_step_local a e)
  | AntWorkerState.CARETAKING => caretaking_step_local a e

/-- The trip accounting at the end of `AntAgent.step`
(`model/ant_agent.py`, lines 84–86): when the post-dispatch state is not
CARETAKING, this tick's density sample is accumulated and `trip_duration`
is incremented. -/
def post_dispatch (a : AntState) (e : StepEnv) : AntState :=
  if a.state ≠ AntWorkerState.CARETAKING then
    { a with neighbor_density_acc := a.neighbor_density_acc + e.density,
             trip_duration := a.trip_duration + 1 }
  else a

/-- One full surviving `AntAgent.step` (`model/ant_agent.py`, lines
67–86): the mortality roll at the top either removes the ant (no further
state exists) or proceeds; this function embeds the surviving path.
`none` marks an uncaught Python exception. -/
def ant_step (a : AntState) (e : StepEnv) : Option AntState :=
  (ant_dispatch a e).map (fun a1 => post_dispatch a1 e)

/-- The ant-local states the simulation can put an ant into: ants are
created by `AntAgent.__init__` in EXPLORE or CARETAKING state with zeroed
accumulators (`model/model.py` `init_ants`, `model/nest.py` `ant_birth`),
evolve by surviving steps, and can externally be drafted from CARETAKING
back to EXPLORE by a returning forager (`returned_to_nest`, lines
279–289); no other code mutates an ant's local attributes. -/
inductive ReachableAnt : AntState → Prop where
  | init (st : AntWorkerState)
      (hst : st = AntWorkerState.EXPLORE ∨ st = AntWorkerState.CARETAKING) :
      ReachableAnt ⟨st, false, 0, 0, none, false, none⟩
  | step {a a1 : AntState} (e : StepEnv) (ha : ReachableAnt a)
      (h : ant_step a e = some a1) : ReachableAnt a1
  | drafted {a : AntState} (ha : ReachableAnt a)
      (h : a.state = AntWorkerState.CARETAKING) :
      ReachableAnt { a with state := AntWorkerState.EXPLORE }

theorem ant_step_post_cases {a a1 : AntState} {e : StepEnv}
    (h : ant_step a e = some a1) :
    a1.state = AntWorkerState.CARETAKING ∨ 1 ≤ a1.trip_duration := by
  unfold ant_step at h
  rcases Option.map_eq_some'.mp h with ⟨a2, _, rfl⟩
  unfold post_dispatch
  by_cases hc : a2.state = AntWorkerState.CARETAKING
  · left
    simp [hc]
  · right
    simp [hc]

theorem reachable_recruit_trip_pos {a : AntState} (ha : ReachableAnt a) :
    a.state = AntWorkerState.RECRUIT → 1 ≤ a.trip_duration := by
  induction ha with
  | init st hst =>
    intro hr
    rcases hst with h | h <;> simp_all
  | step e ha h ih =>
    intro hr
    rcases ant_step_post_cases h with hc | hd
    · rw [hc] at hr
      exact absurd hr (by simp)
    · exact hd
  | drafted ha h ih =>
    intro hr
    simp at hr

theorem returned_to_nest_local_isSome {a : AntState} (e : StepEnv)
    (h : 1 ≤ a.trip_duration) :
    (returned_to_nest_local a e).isSome = true := by
  have hdur : ¬ (((if a.has_leaf then { a with has_leaf := false } else a)
      : AntState).trip_duration = 0) := by
    cases hl : a.has_leaf <;> simp <;> omega
  simp only [returned_to_nest_local, interactionProb]
  rw [if_neg hdur]
  rfl

/-- C3 counterexample: the claim says the trip-density averaging carries
an explicit fallback for a zero denominator. It does not:
`interaction_prob = neighbor_density_acc / trip_duration` is a bare
division, and at `trip_duration = 0` the computation raises
`ZeroDivisionError` (the `none` of the embedding) instead of producing any
fallback value. -/
theorem C3_no_zero_denominator_fallback_counterexample :
    interactionProb 0 0 = none := rfl

/-- The no-exception guarantee cannot cover the CARETAKING state: a
caretaker created while the fungus biomass is exactly 0 records baseline
`fungus_biomass_start = 0`, and at countdown expiry the fitness-ratio
division `fungus.biomass / fungus_biomass_start` raises. Such a state is
reachable (an initial caretaker), which is why C3's guarantee is scoped
to the RECRUIT state, where `returned_to_nest` runs. -/
theorem caretaking_zero_baseline_crash :
    ReachableAnt ⟨AntWorkerState.CARETAKING, false, 0, 0, none, false, none⟩ ∧
    ant_step ⟨AntWorkerState.CARETAKING, false, 0, 0, none, false, none⟩
      ⟨false, false, false, false, false, false, 1, false, 0, 0⟩ = none := by
  refine ⟨ReachableAnt.init AntWorkerState.CARETAKING (Or.inr rfl), ?_⟩
  rfl

/-- C3 (amended): the trip-density averaging in `returned_to_nest` has no
explicit zero-denominator fallback, but on reachable states it never
needs one: every reachable ant state in RECRUIT — the only state from
which `returned_to_nest` is invoked — has `trip_duration ≥ 1` (the
post-dispatch accounting increments it in the very tick that enters
RECRUIT), so the `interaction_prob` division has a nonzero denominator
and the surviving step of a RECRUIT ant never raises, whatever the
environment and random draws of the tick. -/
theorem C3_recruit_interaction_no_zero_division (a : AntState)
    (ha : ReachableAnt a) :
    (a.state = AntWorkerState.RECRUIT → 1 ≤ a.trip_duration) ∧
    (a.state = AntWorkerState.RECRUIT →
      interactionProb a.neighbor_density_acc a.trip_duration ≠ none) ∧
    (a.state = AntWorkerState.RECRUIT →
      ∀ e : StepEnv, (ant_step a e).isSome = true) := by
  have hinv := reachable_recruit_trip_pos ha
  refine ⟨hinv, ?_, ?_⟩
  · intro hst
    have hd := hinv hst
    unfold interactionProb
    rw [if_neg (by omega)]
    exact Option.some_ne_none _
  · intro hst e
    have hdisp : ant_dispatch a e = recruit_step_local a e := by
      unfold ant_dispatch
      rw [hst]
    unfold ant_step
    rw [Option.isSome_map', hdisp]
    unfold recruit_step_local
    by_cases hon : e.onNest = true
    · rw [if_pos hon]
      exact returned_to_nest_local_isSome e (hinv hst)
    · rw [if_neg hon]
      rfl

/-- Witness for C3 at a concrete reachable RECRUIT state (an explorer
that took a leaf the tick before, so `trip_duration = 1`) stepping onto
the nest: the interaction-probability division is defined and the step
succeeds. -/
theorem C3_recruit_interaction_no_zero_division_witness :
    interactionProb (0 : ℚ) 1 ≠ none ∧
    (ant_step ⟨AntWorkerState.RECRUIT, true, 0, 1, none, false, none⟩
      ⟨false, false, false, false, true, false, 1, false, 0, 50⟩).isSome
      = true := by
  have hstep : ant_step ⟨AntWorkerState.EXPLORE, false, 0, 0, none, false, none⟩
      ⟨true, true, false, false, false, false, 1, false, 0, 50⟩ =
      some ⟨AntWorkerState.RECRUIT, true, 0, 1, none, false, none⟩ := by
    simp [ant_step, ant_dispatch, explore_step_local, post_dispatch]
  have hreach : ReachableAnt
      ⟨AntWorkerState.RECRUIT, true, 0, 1, none, false, none⟩ :=
    ReachableAnt.step ⟨true, true, false, false, false, false, 1, false, 0, 50⟩
      (ReachableAnt.init AntWorkerState.EXPLORE (Or.inl rfl)) hstep
  have h := C3_recruit_interaction_no_zero_division
    ⟨AntWorkerState.RECRUIT, true, 0, 1, none, false, none⟩ hreach
  exact ⟨h.2.1 rfl, h.2.2 rfl
    ⟨false, false, false, false, true, false, 1, false, 0, 50⟩⟩

/-- Embedding of the mortality roll at the top of `AntAgent.step`
(`model/ant_agent.py`, lines 68–72): `random.random()` yields a value
`r ∈ [0, 1)` (0 included), and the ant is removed from grid and scheduler
iff `r <= ant_death_probability`. -/
def mortalityRemoves (p r : ℚ) : Bool :=
  r ≤ p

/-- Number of ants surviving the mortality rolls of one tick, given one
`random.random()` draw per living ant. -/
def survivors (p : ℚ) (draws : List ℚ) : ℕ :=
  (draws.filter (fun r => !(mortalityRemoves p r))).length

/-- Evolution of the ant count over a run: each tick every living ant
rolls its mortality draw, and the births of the tick (nest `ant_birth`)
are added. Only these two mechanisms change the ant population
(`model/ant_agent.py` step, `model/nest.py` ant_birth). -/
def antCountRun (p : ℚ) (n0 : ℕ) : List (List ℚ × ℕ) → ℕ
  | [] => n0
  | (draws, births) :: rest => antCountRun p (survivors p draws + births) rest

/-- A run description is well formed when each tick provides exactly one
mortality draw per living ant. -/
def ticksWellFormed (p : ℚ) (n0 : ℕ) : List (List ℚ × ℕ) → Prop
  | [] => True
  | (draws, births) :: rest =>
      draws.length = n0 ∧ ticksWellFormed p (survivors p draws + births) rest

/-- C4 counterexample: with `ant_death_probability = 0` the mortality roll
does not "never remove the ant": `random.random()` can return exactly 0.0
(a legal value, `0 ≤ 0 < 1`), and `0 <= 0` removes the ant. -/
theorem C4_mortality_roll_counterexample :
    (0 : ℚ) ≤ 0 ∧ (0 : ℚ) < 1 ∧ mortalityRemoves 0 0 = true ∧
    ¬ (∀ r : ℚ, 0 ≤ r → r < 1 → mortalityRemoves 0 r = false) := by
  refine ⟨le_refl 0, by norm_num, by decide, ?_⟩
  intro h
  have h0 := h 0 (le_refl 0) (by norm_num)
  simp [mortalityRemoves] at h0

theorem survivors_all_pos {draws : List ℚ} (hpos : ∀ r ∈ draws, 0 < r) :
    survivors 0 draws = draws.length := by
  unfold survivors
  rw [List.filter_length_eq_length.mpr]
  intro r hr
  have := hpos r hr
  simp only [mortalityRemoves, Bool.not_eq_eq_eq_not, Bool.not_true,
    decide_eq_false_iff_not]
  intro hle
  exact absurd (lt_of_lt_of_le this hle) (lt_irrefl 0)

/-- C4 (amended): with `ant_death_probability = 0` the mortality roll
removes an ant exactly when its draw is 0; in every run in which all
mortality draws are positive, no ant is ever removed, so after any number
of ticks the ant count equals the initial count plus the total births — in
particular an orchestrator started with 10 ants reports ant count 10 at
every tick of such a run as long as no offspring are produced. -/
theorem C4_ant_count_conserved (n0 : ℕ) (ticks : List (List ℚ × ℕ))
    (hpos : ∀ t ∈ ticks, ∀ r ∈ t.1, 0 < r)
    (hwf : ticksWellFormed 0 n0 ticks) :
    antCountRun 0 n0 ticks = n0 + (ticks.map Prod.snd).sum ∧
    ((∀ t ∈ ticks, t.2 = 0) → antCountRun 0 n0 ticks = n0) := by
  have hmain : ∀ (ts : List (List ℚ × ℕ)) (n : ℕ),
      (∀ t ∈ ts, ∀ r ∈ t.1, 0 < r) → ticksWellFormed 0 n ts →
      antCountRun 0 n ts = n + (ts.map Prod.snd).sum := by
    intro ts
    induction ts with
    | nil =>
      intro n _ _
      simp [antCountRun]
    | cons t rest ih =>
      intro n hp hw
      obtain ⟨draws, births⟩ := t
      obtain ⟨hlen, hwrest⟩ := hw
      have hdpos : ∀ r ∈ draws, 0 < r := hp (draws, births) (by simp)
      have hsurv : survivors 0 draws = n := by
        rw [survivors_all_pos hdpos, hlen]
      have hrest := ih (survivors 0 draws + births)
        (fun t ht => hp t (List.mem_cons_of_mem _ ht)) hwrest
      show antCountRun 0 (survivors 0 draws + births) rest =
        n + ((draws, births) :: rest |>.map Prod.snd).sum
      rw [hrest, hsurv]
      simp only [List.map_cons, List.sum_cons]
      omega
  have h1 := hmain ticks n0 hpos hwf
  refine ⟨h1, ?_⟩
  intro hzero
  rw [h1]
  have : (ticks.map Prod.snd).sum = 0 := by
    apply List.sum_eq_zero
    intro x hx
    rw [List.mem_map] at hx
    obtain ⟨t, ht, rfl⟩ := hx
    exact hzero t ht
  omega

/-- Witness for C4: two ants survive a tick with positive draws 1/2 and
1/3 and one birth, giving a count of 3 = 2 + 1. -/
theorem C4_ant_count_conserved_witness :
    antCountRun 0 2 [([(1 : ℚ)/2, 1/3], 1)] =
      2 + ([([(1 : ℚ)/2, 1/3], 1)].map Prod.snd).sum :=
  (C4_ant_count_conserved 2 [([(1 : ℚ)/2, 1/3], 1)]
    (by
      intro t ht r hr
      rw [List.mem_singleton] at ht
      subst ht
      simp only [List.mem_cons, List.not_mem_nil, or_false] at hr
      rcases hr with rfl | rfl <;> norm_num)
    ⟨rfl, trivial⟩).1

/-- The final state of a completed simulation as read by the model-level
metric functions (`model/model.py`) and the sensitivity drive
(`Sobol.py`): the scheduler's agent list, the fungus biomass and the
nest's fitness queue. -/
structure SimModel where
  agents : List SimAgent
  fungusBiomass : ℚ
  fitnessQueue : List ℚ
deriving DecidableEq, Repr

/-- Embedding of `track_ants` (`model/model.py`, lines 20–25): the number
of `AntAgent` instances in the scheduler. -/
def track_ants (m : SimModel) : ℕ :=
  (m.agents.filter SimAgent.isAnt).length

/-- Embedding of `track_ants_leaves` (`model/model.py`, lines 12–17). -/
def track_ants_leaves (m : SimModel) : ℕ :=
  (m.agents.filter (fun a => match a with
    | SimAgent.ant _ hasLeaf _ => hasLeaf
    | _ => false)).length

/-- Embedding of `track_dormant_ants` (`model/model.py`, lines 28–43):
dormant caretakers over caretakers, 0.0 when there is no caretaker. -/
def track_dormant_ants (m : SimModel) : ℚ :=
  let caretakers := m.agents.filter (fun a => match a with
    | SimAgent.ant st _ _ => decide (st = AntWorkerState.CARETAKING)
    | _ => false)
  let dormants := caretakers.filter (fun a => match a with
    | SimAgent.ant _ _ d => d
    | _ => false)
  if caretakers.length = 0 then 0
  else (dormants.length : ℚ) / caretakers.length

/-- Embedding of `track_ratio_foragers` (`model/model.py`, lines 46–62):
non-caretaking ants over all ants, 0.0 when there is no ant. -/
def track_ratio_foragers (m : SimModel) : ℚ :=
  let ants := m.agents.filter SimAgent.isAnt
  let foragers := ants.filter (fun a => match a with
    | SimAgent.ant st _ _ => decide (st ≠ AntWorkerState.CARETAKING)
    | _ => false)
  if 0 < ants.length then (foragers.length : ℚ) / ants.length
  else 0

/-- Embedding of `track_leaves` (`model/model.py`, lines 77–82): the sum
of `num_leaves` over all plants. -/
def track_leaves (m : SimModel) : ℕ :=
  (m.agents.filterMap (fun a => match a with
    | SimAgent.plant n => some n
    | _ => none)).sum

/-- Embedding of `fungus_biomass` (`Sobol.py`, lines 78–79). -/
def fungus_biomass (m : SimModel) : ℚ :=
  m.fungusBiomass

/-- The six Sobol model reporters evaluated in the order of Python's
`sorted(model_reporters.keys())` (`Sobol.py`, lines 121–122): "Ants with
leaves", "Ants_Biomass", "Available leaves", "Dormant caretakers
fraction", "Fraction forager ants", "Fungus_Biomass". -/
def metricsOf (m : SimModel) : List ℚ :=
  [(track_ants_leaves m : ℚ), (track_ants m : ℚ), (track_leaves m : ℚ),
   track_dormant_ants m, track_ratio_foragers m, fungus_biomass m]

/-- The stream the process pool yields to `run_model_parallel`
(`Sobol.py`, lines 115–120): one `(model, original-row-index)` pair per
sample row — `run_model` returns `m, i` for input row `i` (line 101) —
delivered in the arbitrary completion order `order`. -/
def poolStream (models : ℕ → SimModel) (order : List ℕ) :
    List (SimModel × ℕ) :=
  order.map (fun i => (models i, i))

/-- The collection loop of `run_model_parallel` (`Sobol.py`, lines
116–122): `results[ix] = np.array([model_reporters[key](model) for key in
sorted(model_reporters.keys())])` for every yielded pair. -/
def collectResults (init : ℕ → List ℚ) (stream : List (SimModel × ℕ)) :
    ℕ → List ℚ :=
  stream.foldl (fun res p => Function.update res p.2 (metricsOf p.1)) init

theorem collectResults_not_mem (models : ℕ → SimModel) :
    ∀ (order : List ℕ) (init : ℕ → List ℚ) (i : ℕ), i ∉ order →
      collectResults init (poolStream models order) i = init i := by
  intro order
  induction order with
  | nil =>
    intro init i _
    rfl
  | cons j rest ih =>
    intro init i h
    have hij : i ≠ j := fun he => h (he ▸ List.mem_cons_self j rest)
    have hrest : i ∉ rest := fun hm => h (List.mem_cons_of_mem _ hm)
    show collectResults
      (Function.update init j (metricsOf (models j)))
      (poolStream models rest) i = init i
    rw [ih _ i hrest]
    exact Function.update_noteq hij _ _

theorem collectResults_mem (models : ℕ → SimModel) :
    ∀ (order : List ℕ) (init : ℕ → List ℚ) (i : ℕ), i ∈ order →
      collectResults init (poolStream models order) i =
        metricsOf (models i) := by
  intro order
  induction order with
  | nil =>
    intro init i hi
    exact absurd hi (List.not_mem_nil i)
  | cons j rest ih =>
    intro init i hi
    show collectResults
      (Function.update init j (metricsOf (models j)))
      (poolStream models rest) i = metricsOf (models i)
    by_cases hmem : i ∈ rest
    · exact ih _ i hmem
    · have hij : i = j := by
        rcases List.mem_cons.mp hi with h | h
        · exact h
        · exact absurd h hmem
      subst hij
      rw [collectResults_not_mem models rest _ i hmem]
      exact Function.update_same i _ init

/-- C9: sample-to-result alignment in `run_model_parallel` is independent
of the completion order. For any assignment of final models to sample rows
and any completion order containing row `i`, the results row `i` holds
exactly the six sorted-order metrics of the model built from sample row
`i`; consequently any two completion orders covering row `i` produce the
same row `i`. -/
theorem C9_sample_result_alignment (models : ℕ → SimModel)
    (init : ℕ → List ℚ) (order : List ℕ) (i : ℕ) (hi : i ∈ order) :
    collectResults init (poolStream models order) i =
      metricsOf (models i) ∧
    (∀ order₂ : List ℕ, i ∈ order₂ →
      collectResults init (poolStream models order₂) i =
        collectResults init (poolStream models order) i) := by
  refine ⟨collectResults_mem models order init i hi, ?_⟩
  intro order₂ hi₂
  rw [collectResults_mem models order init i hi,
    collectResults_mem models order₂ init i hi₂]

/-- Witness for C9 with two rows completing out of order (row 1 first):
row 0 still receives the metrics of model 0, identically to the in-order
completion. -/
theorem C9_sample_result_alignment_witness :
    collectResults (fun _ => [])
      (poolStream (fun _ => ⟨[SimAgent.ant AntWorkerState.EXPLORE false false],
        50, []⟩) [1, 0]) 0 =
      metricsOf ⟨[SimAgent.ant AntWorkerState.EXPLORE false false], 50, []⟩ ∧
    (∀ order₂ : List ℕ, 0 ∈ order₂ →
      collectResults (fun _ => [])
        (poolStream (fun _ => ⟨[SimAgent.ant AntWorkerState.EXPLORE false false],
          50, []⟩) order₂) 0 =
      collectResults (fun _ => [])
        (poolStream (fun _ => ⟨[SimAgent.ant AntWorkerState.EXPLORE false false],
          50, []⟩) [1, 0]) 0) :=
  C9_sample_result_alignment
    (fun _ => ⟨[SimAgent.ant AntWorkerState.EXPLORE false false], 50, []⟩)
    (fun _ => []) [1, 0] 0 (by simp)

/-- A unit of work put on the batch runner's queue
(`batchrunner.py`, `_make_model_args_mp`): either the four-element list
`[model_cls, kwargs, max_steps, iteration]` of the varying-parameter
branch, or the bare kwargs dictionary appended by the fixed-only branch.
Parameter dictionaries are embedded as association lists (`params` merged
with `fixed_parameters`, the Python `dict.update`). -/
inductive WorkItem (M : Type) where
  | quad (cls : M) (kwargs : List (String × ℚ)) (maxSteps : ℕ) (iter : ℕ)
  | bare (kwargs : List (String × ℚ))
deriving DecidableEq

/-- Embedding of `BatchRunnerMPPlus._make_model_args_mp`
(`batchrunner.py`, lines 29–58): when `parameters_list` is nonempty, one
quadruple per (parameter combination, iteration) pair, with
`total_iterations = iterations * count`; when it is empty but fixed
parameters exist, a single bare kwargs item with `count = 1`; with both
empty, no items and `count = 0`. -/
def make_model_args_mp {M : Type} (cls : M)
    (parameters_list : List (List (String × ℚ)))
    (fixed_parameters : List (String × ℚ)) (iterations max_steps : ℕ) :
    List (WorkItem M) × ℕ :=
  if parameters_list.length ≠ 0 then
    (parameters_list.flatMap (fun params =>
      (List.range iterations).map (fun it =>
        WorkItem.quad cls (params ++ fixed_parameters) max_steps it)),
     iterations * parameters_list.length)
  else if fixed_parameters.length ≠ 0 then
    ([WorkItem.bare fixed_parameters], iterations * 1)
  else
    ([], iterations * 0)

/-- Embedding of one loop body of `BatchRunnerMPPlus._run_wrappermp`
(`batchrunner.py`, lines 76–98) on a dequeued item: `iter_args[0]` …
`iter_args[3]` are read positionally, the model is instantiated and
stepped (abstracted as `exec`), and the result is stored under the key
(kwargs values, iteration). Positional indexing of the bare kwargs
dictionary — whose keys are parameter-name strings, not 0..3 — raises
`KeyError`, so a bare item produces no result (`none`). -/
def run_wrappermp_item {M R : Type}
    (exec : M → List (String × ℚ) → ℕ → R) :
    WorkItem M → Option ((List (String × ℚ) × ℕ) × R)
  | WorkItem.quad cls kwargs max_steps iter =>
      some ((kwargs, iter), exec cls kwargs max_steps)
  | WorkItem.bare _ => none

/-- C10: with an empty varying-parameter list but nonempty fixed
parameters, `_make_model_args_mp` enqueues the bare kwargs dictionary
instead of a four-element work item, and `_run_wrappermp` cannot execute
it (`KeyError` on positional indexing); whereas with at least one
varying-parameter combination every enqueued item is a well-formed
quadruple, there are exactly `P * iterations` of them, each executes to a
result keyed by its (kwargs, iteration) pair, and for distinct parameter
combinations these keys are pairwise distinct — the `P × I` result-key
contract. -/
theorem C10_make_model_args_work_items {M R : Type} (cls : M)
    (plist : List (List (String × ℚ))) (fixed : List (String × ℚ))
    (iterations max_steps : ℕ) (exec : M → List (String × ℚ) → ℕ → R) :
    (fixed ≠ [] →
      make_model_args_mp cls [] fixed iterations max_steps =
        ([WorkItem.bare fixed], iterations) ∧
      run_wrappermp_item exec (WorkItem.bare fixed) = none) ∧
    (plist ≠ [] →
      (make_model_args_mp cls plist fixed iterations max_steps).1.length =
        plist.length * iterations ∧
      (make_model_args_mp cls plist fixed iterations max_steps).2 =
        iterations * plist.length ∧
      (∀ w ∈ (make_model_args_mp cls plist fixed iterations max_steps).1,
        ∃ params iter, params ∈ plist ∧ iter < iterations ∧
          w = WorkItem.quad cls (params ++ fixed) max_steps iter ∧
          (run_wrappermp_item exec w).isSome = true) ∧
      (plist.Nodup →
        ((make_model_args_mp cls plist fixed iterations max_steps).1.map
          (fun w => match w with
            | WorkItem.quad _ kw _ it => (kw, it)
            | WorkItem.bare kw => (kw, 0))).Nodup)) := by
  constructor
  · intro hfix
    have hlen : fixed.length ≠ 0 := by
      intro h
      exact hfix (List.length_eq_zero.mp h)
    constructor
    · unfold make_model_args_mp
      rw [if_neg (by simp), if_pos hlen, Nat.mul_one]
    · rfl
  · intro hp
    have hlen : plist.length ≠ 0 := by
      intro h
      exact hp (List.length_eq_zero.mp h)
    have hitems : (make_model_args_mp cls plist fixed iterations max_steps).1 =
        plist.flatMap (fun params =>
          (List.range iterations).map (fun it =>
            WorkItem.quad cls (params ++ fixed) max_steps it)) := by
      unfold make_model_args_mp
      rw [if_pos hlen]
    refine ⟨?_, ?_, ?_, ?_⟩
    · rw [hitems, List.length_flatMap]
      have : (plist.map (List.length ∘ fun params =>
          (List.range iterations).map (fun it =>
            WorkItem.quad cls (params ++ fixed) max_steps it))) =
          plist.map (fun _ => iterations) := by
        apply List.map_congr_left
        intro params _
        simp [Function.comp, List.length_map, List.length_range]
      rw [this, List.map_const', List.sum_replicate, smul_eq_mul]
    · unfold make_model_args_mp
      rw [if_pos hlen]
    · intro w hw
      rw [hitems] at hw
      rw [List.mem_flatMap] at hw
      obtain ⟨params, hpm, hw⟩ := hw
      rw [List.mem_map] at hw
      obtain ⟨it, hit, rfl⟩ := hw
      exact ⟨params, it, hpm, List.mem_range.mp hit, rfl, rfl⟩
    · intro hnd
      rw [hitems, List.map_flatMap]
      rw [List.nodup_flatMap]
      constructor
      · intro params _
        rw [List.map_map]
        apply List.Nodup.map
        · intro i j hij
          simp only [Function.comp] at hij
          have := congrArg Prod.snd hij
          simpa using this
        · exact List.nodup_range iterations
      · apply List.Pairwise.imp ?_ hnd
        intro p₁ p₂ hne
        rw [Function.onFun, List.disjoint_left]
        intro x hx₁ hx₂
        rw [List.map_map, List.mem_map] at hx₁ hx₂
        obtain ⟨i₁, _, rfl⟩ := hx₁
        obtain ⟨i₂, _, hx⟩ := hx₂
        simp only [Function.comp, Prod.mk.injEq] at hx
        exact hne (List.append_cancel_right hx.1.symm)

/-- Witness for C10 in both regimes: one fixed-only configuration yields
the inexecutable bare item, and a two-combination, two-iteration list
yields four well-formed quadruples. -/
theorem C10_make_model_args_work_items_witness :
    (make_model_args_mp 0 [] [("width", 5)] 2 50 =
        ([WorkItem.bare [("width", 5)]], 2) ∧
      run_wrappermp_item (fun (_ : ℕ) _ _ => 0)
        (WorkItem.bare [("width", 5)]) = none) ∧
    ((make_model_args_mp 0 [[("a", 1)], [("a", 2)]] [("width", 5)] 2 50).1.length
        = 2 * 2 ∧
      (make_model_args_mp 0 [[("a", 1)], [("a", 2)]] [("width", 5)] 2 50).2
        = 2 * 2) := by
  have h := C10_make_model_args_work_items (M := ℕ) (R := ℕ) 0
    [[("a", (1 : ℚ))], [("a", 2)]] [("width", 5)] 2 50 (fun _ _ _ => 0)
  have h1 := h.1 (by simp)
  have h2 := h.2 (by simp)
  exact ⟨⟨h1.1, h1.2⟩, ⟨h2.1, h2.2.1⟩⟩
